import Mathlib

/-!
Verification development for the plotting helper module of the bokeh
repository (bokeh/plotting/helpers.py).

The module is a collection of stateless helper functions manipulating
string-keyed dictionaries and constructing framework model objects.
Python dictionaries are embedded as association lists with unique keys,
Python dynamic values as a small inductive type, and fallible functions
return an Except value.  All definitions are translated from the source
file; types of the external framework (bokeh.models, bokeh.transform,
bokeh.util) that the source merely constructs are modelled as inductive
datatypes recording their constructor arguments.
-/

namespace BokehHelpers

/-- A Python runtime value as it occurs in the helper module: a string,
a number, or some other opaque object. -/
inductive PyVal where
  | str (s : String)
  | num (q : ℚ)
  | other (tag : String)
deriving DecidableEq, Repr

/-- First-match lookup in an association list, mirroring Python dict
indexing (dict keys are unique, so first match is the match). -/
def dlookup {α : Type} : List (String × α) → String → Option α
  | [], _ => none
  | (k, v) :: t, key => if k = key then some v else dlookup t key

/-- Python `key in dict`. -/
def dcontains {α : Type} (d : List (String × α)) (k : String) : Bool :=
  (dlookup d k).isSome

/-- Python `dict.pop(key, None)`: remove the binding for a key. -/
def derase {α : Type} : List (String × α) → String → List (String × α)
  | [], _ => []
  | (k', v') :: t, k => if k' = k then derase t k else (k', v') :: derase t k

/-- Python `dict[key] = value`: overwrite in place when the key is
present, append at the end otherwise. -/
def dinsert {α : Type} : List (String × α) → String → α → List (String × α)
  | [], k, v => [(k, v)]
  | (k', v') :: t, k, v => if k' = k then (k, v) :: t else (k', v') :: dinsert t k v

/-- Python `dict.setdefault(key, value)`. -/
def dsetdefault {α : Type} (d : List (String × α)) (k : String) (v : α) :
    List (String × α) :=
  if dcontains d k then d else d ++ [(k, v)]

theorem dlookup_derase {α : Type} (d : List (String × α)) (k k' : String) :
    dlookup (derase d k) k' = if k' = k then none else dlookup d k' := by
  induction d with
  | nil => simp [derase, dlookup]
  | cons hd t ih =>
    obtain ⟨k0, v0⟩ := hd
    by_cases h0 : k0 = k
    · rw [derase, if_pos h0, ih]
      by_cases h1 : k' = k
      · rw [if_pos h1, if_pos h1]
      · have h2 : ¬ k0 = k' := fun h => h1 (by rw [← h]; exact h0)
        rw [if_neg h1, if_neg h1, dlookup, if_neg h2]
    · rw [derase, if_neg h0, dlookup]
      by_cases h2 : k0 = k'
      · have h3 : ¬ k' = k := fun h => h0 (h2.trans h)
        rw [if_pos h2, if_neg h3, dlookup, if_pos h2]
      · rw [if_neg h2, ih]
        by_cases h1 : k' = k
        · rw [if_pos h1, if_pos h1]
        · rw [if_neg h1, if_neg h1, dlookup, if_neg h2]

theorem dlookup_dinsert {α : Type} (d : List (String × α)) (k k' : String) (v : α) :
    dlookup (dinsert d k v) k' = if k' = k then some v else dlookup d k' := by
  induction d with
  | nil =>
    simp only [dinsert, dlookup]
    by_cases h : k = k'
    · rw [if_pos h, if_pos h.symm]
    · rw [if_neg h, if_neg (fun hh : k' = k => h hh.symm)]
  | cons hd t ih =>
    obtain ⟨k0, v0⟩ := hd
    by_cases h0 : k0 = k
    · rw [dinsert, if_pos h0, dlookup]
      by_cases h1 : k = k'
      · rw [if_pos h1, if_pos h1.symm]
      · have h2 : ¬ k0 = k' := fun h => h1 (by rw [← h0]; exact h)
        rw [if_neg h1, if_neg (fun hh : k' = k => h1 hh.symm), dlookup, if_neg h2]
    · rw [dinsert, if_neg h0, dlookup]
      by_cases h2 : k0 = k'
      · have h3 : ¬ k' = k := fun h => h0 (h2.trans h)
        rw [if_pos h2, if_neg h3, dlookup, if_pos h2]
      · rw [if_neg h2, ih]
        by_cases h1 : k' = k
        · rw [if_pos h1, if_pos h1]
        · rw [if_neg h1, if_neg h1, dlookup, if_neg h2]

theorem derase_of_not_contains {α : Type} (d : List (String × α)) (k : String)
    (h : dcontains d k = false) : derase d k = d := by
  induction d with
  | nil => simp [derase]
  | cons hd t ih =>
    obtain ⟨k0, v0⟩ := hd
    by_cases h0 : k0 = k
    · subst h0
      simp [dcontains, dlookup] at h
    · simp [dcontains, dlookup, h0] at h
      simp [derase, h0, ih (by simp [dcontains, h])]

theorem dlookup_append {α : Type} (d1 d2 : List (String × α)) (k : String) :
    dlookup (d1 ++ d2) k = (dlookup d1 k).or (dlookup d2 k) := by
  induction d1 with
  | nil => simp [dlookup]
  | cons hd t ih =>
    obtain ⟨k0, v0⟩ := hd
    by_cases h0 : k0 = k <;> simp [dlookup, h0, ih]

theorem dinsert_of_not_contains {α : Type} (d : List (String × α)) (k : String)
    (v : α) (h : dcontains d k = false) : dinsert d k v = d ++ [(k, v)] := by
  induction d with
  | nil => simp [dinsert]
  | cons hd t ih =>
    obtain ⟨k0, v0⟩ := hd
    by_cases h0 : k0 = k
    · subst h0
      simp [dcontains, dlookup] at h
    · simp [dcontains, dlookup, h0] at h
      simp [dinsert, h0, ih (by simp [dcontains, h])]

/-- The default palette of get_default_color. -/
def default_colors : List String :=
  ["#1f77b4",
   "#ff7f0e", "#ffbb78",
   "#2ca02c", "#98df8a",
   "#d62728", "#ff9896",
   "#9467bd", "#c5b0d5",
   "#8c564b", "#c49c94",
   "#e377c2", "#f7b6d2",
   "#7f7f7f",
   "#bcbd22", "#dbdb8d",
   "#17becf", "#9edae5"]

/-- get_default_color with no plot argument returns the first palette
color (the only way _pop_visuals calls it). -/
def get_default_color : PyVal := .str default_colors.headI

/-- Split a character list at the first occurrence of sep, mirroring
Python str.split with maxsplit one: none when sep does not occur. -/
def splitFirst (sep : Char) : List Char → Option (List Char × List Char)
  | [] => none
  | c :: cs =>
    if c = sep then some ([], cs) else
      match splitFirst sep cs with
      | none => none
      | some (a, b) => some (c :: a, b)

/-- The feature part of a visual property name: everything up to the
first underscore (Python ft.split with maxsplit one, first component). -/
def featureOf (ft : String) : String :=
  match splitFirst '_' ft.toList with
  | none => ft
  | some (a, _) => String.mk a

/-- The trait part of a visual property name: everything after the first
underscore, or none when there is no underscore (Python ft.split with
maxsplit one, second component). -/
def traitOf (ft : String) : Option String :=
  match splitFirst '_' ft.toList with
  | none => none
  | some (_, b) => some (String.mk b)

/-- Whether a feature-trait name is visual: its feature is one of line,
fill, text, global and it does have a trait part. -/
def is_visual (ft : String) : Bool :=
  decide (featureOf ft ∈ ["line", "fill", "text", "global"]) && (traitOf ft).isSome

/-- The ultimate per-trait fallbacks of _pop_visuals. -/
def trait_defaults : List (String × PyVal) :=
  [("color", get_default_color), ("alpha", .num 1)]

/-- One iteration of the _pop_visuals loop body for property name pname:
the five-branch if chain filling result and popping consumed keys from
props.  The state is the pair (result, props). -/
def popStep (glyphprops : List String) (pfx : String)
    (dflts ovrd : List (String × PyVal))
    (st : List (String × PyVal) × List (String × PyVal)) (pname : String) :
    List (String × PyVal) × List (String × PyVal) :=
  if dcontains st.2 (pfx ++ pname) = true then
    (dinsert st.1 pname ((dlookup st.2 (pfx ++ pname)).getD (.other "")),
     derase st.2 (pfx ++ pname))
  else if ((traitOf pname).getD "") ∉ glyphprops ∧
      dcontains st.2 (pfx ++ ((traitOf pname).getD "")) = true then
    (dinsert st.1 pname
      ((dlookup st.2 (pfx ++ ((traitOf pname).getD ""))).getD (.other "")), st.2)
  else if dcontains ovrd ((traitOf pname).getD "") = true then
    (dinsert st.1 pname ((dlookup ovrd ((traitOf pname).getD "")).getD (.other "")), st.2)
  else if dcontains dflts pname = true then
    (dinsert st.1 pname ((dlookup dflts pname).getD (.other "")), st.2)
  else if dcontains trait_defaults ((traitOf pname).getD "") = true then
    (dinsert st.1 pname
      ((dlookup trait_defaults ((traitOf pname).getD "")).getD (.other "")), st.2)
  else st

/-- The cascading property deduction of the source: iterate over the
visual properties of the glyph class, fill the result dict by the
five-tier cascade, and finally pop the trait-alias keys for traits that
are not glyph properties.  Returns the pair (result, final props). -/
def _pop_visuals (glyphprops : List String) (props : List (String × PyVal))
    (pfx : String) (dflts ovrd : List (String × PyVal)) :
    List (String × PyVal) × List (String × PyVal) :=
  let dflts2 := dsetdefault dflts "text_color" (.str "black")
  let visuals := glyphprops.filter is_visual
  let st := visuals.foldl (popStep glyphprops pfx dflts2 ovrd) ([], props)
  let traits := (visuals.map (fun p => (traitOf p).getD "")).filter
    (fun t => ¬ t ∈ glyphprops)
  (st.1, traits.foldl (fun pr t => derase pr (pfx ++ t)) st.2)

/-- The five-tier precedence exactly as the specification words it:
explicit prefixed key, then aliased trait key (for traits that are not
glyph properties), then override default, then glyph-level default, then
the global trait default (black for text_color, the first palette color
for trait color, one for trait alpha); otherwise no value. -/
def cascadeSpec (glyphprops : List String) (props dflts ovrd : List (String × PyVal))
    (pfx pname : String) : Option PyVal :=
  if dcontains props (pfx ++ pname) = true then dlookup props (pfx ++ pname)
  else if ((traitOf pname).getD "") ∉ glyphprops ∧
      dcontains props (pfx ++ ((traitOf pname).getD "")) = true then
    dlookup props (pfx ++ ((traitOf pname).getD ""))
  else if dcontains ovrd ((traitOf pname).getD "") = true then
    dlookup ovrd ((traitOf pname).getD "")
  else if dcontains dflts pname = true then dlookup dflts pname
  else if pname = "text_color" then some (.str "black")
  else if ((traitOf pname).getD "") = "color" then some get_default_color
  else if ((traitOf pname).getD "") = "alpha" then some (.num 1)
  else none

/-- The keys _pop_visuals removes from the caller props: the prefixed
visual property names present in props (consumed by tier one) and the
prefixed trait aliases of visual properties whose trait is not itself a
glyph property. -/
def removedKey (glyphprops : List String) (pfx : String)
    (props : List (String × PyVal)) (k : String) : Prop :=
  (∃ p ∈ glyphprops, is_visual p = true ∧ k = pfx ++ p ∧ dcontains props k = true) ∨
  (∃ p ∈ glyphprops, is_visual p = true ∧ ((traitOf p).getD "") ∉ glyphprops ∧
    k = pfx ++ ((traitOf p).getD ""))

instance (glyphprops : List String) (pfx : String)
    (props : List (String × PyVal)) (k : String) :
    Decidable (removedKey glyphprops pfx props k) := by
  unfold removedKey
  infer_instance

theorem str_append_cancel (p a b : String) (h : p ++ a = p ++ b) : a = b := by
  have hd := congrArg String.data h
  simp [String.data_append] at hd
  exact String.ext hd

theorem popStep_snd (g : List String) (pfx : String)
    (dflts ovrd : List (String × PyVal)) (st : List (String × PyVal) × List (String × PyVal))
    (p : String) :
    (popStep g pfx dflts ovrd st p).2 = derase st.2 (pfx ++ p) := by
  unfold popStep
  by_cases h1 : dcontains st.2 (pfx ++ p) = true
  · rw [if_pos h1]
  · rw [if_neg h1, derase_of_not_contains st.2 _ (by simpa using h1)]
    by_cases h2 : ((traitOf p).getD "") ∉ g ∧
        dcontains st.2 (pfx ++ ((traitOf p).getD "")) = true
    · rw [if_pos h2]
    · rw [if_neg h2]
      by_cases h3 : dcontains ovrd ((traitOf p).getD "") = true
      · rw [if_pos h3]
      · rw [if_neg h3]
        by_cases h4 : dcontains dflts p = true
        · rw [if_pos h4]
        · rw [if_neg h4]
          by_cases h5 : dcontains trait_defaults ((traitOf p).getD "") = true
          · rw [if_pos h5]
          · rw [if_neg h5]

theorem popStep_fst_other (g : List String) (pfx : String)
    (dflts ovrd : List (String × PyVal)) (st : List (String × PyVal) × List (String × PyVal))
    (p k : String) (hk : ¬ k = p) :
    dlookup (popStep g pfx dflts ovrd st p).1 k = dlookup st.1 k := by
  unfold popStep
  by_cases h1 : dcontains st.2 (pfx ++ p) = true
  · rw [if_pos h1]; rw [dlookup_dinsert, if_neg hk]
  · rw [if_neg h1]
    by_cases h2 : ((traitOf p).getD "") ∉ g ∧
        dcontains st.2 (pfx ++ ((traitOf p).getD "")) = true
    · rw [if_pos h2]; rw [dlookup_dinsert, if_neg hk]
    · rw [if_neg h2]
      by_cases h3 : dcontains ovrd ((traitOf p).getD "") = true
      · rw [if_pos h3]; rw [dlookup_dinsert, if_neg hk]
      · rw [if_neg h3]
        by_cases h4 : dcontains dflts p = true
        · rw [if_pos h4]; rw [dlookup_dinsert, if_neg hk]
        · rw [if_neg h4]
          by_cases h5 : dcontains trait_defaults ((traitOf p).getD "") = true
          · rw [if_pos h5]; rw [dlookup_dinsert, if_neg hk]
          · rw [if_neg h5]

theorem foldl_popStep_fst_stable (g : List String) (pfx : String)
    (dflts ovrd : List (String × PyVal)) (k : String) :
    ∀ (L : List String) (st : List (String × PyVal) × List (String × PyVal)),
      (∀ p ∈ L, ¬ k = p) →
      dlookup (L.foldl (popStep g pfx dflts ovrd) st).1 k = dlookup st.1 k := by
  intro L
  induction L with
  | nil => intro st _; rfl
  | cons p L' ih =>
    intro st hL
    rw [List.foldl_cons, ih _ (fun q hq => hL q (List.mem_cons_of_mem _ hq)),
      popStep_fst_other _ _ _ _ _ _ _ (hL p (List.mem_cons_self _ _))]

theorem foldl_popStep_snd (g : List String) (pfx : String)
    (dflts ovrd : List (String × PyVal)) :
    ∀ (L : List String) (st : List (String × PyVal) × List (String × PyVal)),
      (L.foldl (popStep g pfx dflts ovrd) st).2 =
        L.foldl (fun pr p => derase pr (pfx ++ p)) st.2 := by
  intro L
  induction L with
  | nil => intro st; rfl
  | cons p L' ih =>
    intro st
    rw [List.foldl_cons, List.foldl_cons, ih]
    rcases hs : popStep g pfx dflts ovrd st p with ⟨r2, p2⟩
    have := popStep_snd g pfx dflts ovrd st p
    rw [hs] at this
    rw [this]

theorem foldl_derase_lookup (pfx : String) :
    ∀ (L : List String) (d : List (String × PyVal)) (k : String),
      dlookup (L.foldl (fun pr p => derase pr (pfx ++ p)) d) k =
        if ∃ p ∈ L, pfx ++ p = k then none else dlookup d k := by
  intro L
  induction L with
  | nil => intro d k; simp
  | cons p L' ih =>
    intro d k
    rw [List.foldl_cons, ih]
    by_cases hex : ∃ q ∈ L', pfx ++ q = k
    · rw [if_pos hex, if_pos ⟨_, List.mem_cons_of_mem _ hex.choose_spec.1,
        hex.choose_spec.2⟩]
    · rw [if_neg hex, dlookup_derase]
      by_cases hp : pfx ++ p = k
      · rw [if_pos hp.symm, if_pos ⟨p, List.mem_cons_self _ _, hp⟩]
      · rw [if_neg (fun h => hp h.symm), if_neg ?h]
        intro hx
        rcases hx with ⟨q, hq, hqk⟩
        rcases List.mem_cons.mp hq with rfl | hq'
        · exact hp hqk
        · exact hex ⟨q, hq', hqk⟩

theorem some_getD {α : Type} (o : Option α) (d : α) (h : o.isSome = true) :
    some (o.getD d) = o := by
  cases o with
  | none => simp at h
  | some x => rfl

theorem dlookup_dsetdefault {α : Type} (d : List (String × α)) (k k' : String)
    (v : α) :
    dlookup (dsetdefault d k v) k' =
      if k' = k then (dlookup d k).or (some v) else dlookup d k' := by
  unfold dsetdefault
  by_cases hc : dcontains d k = true
  · rw [if_pos hc]
    by_cases hk : k' = k
    · rw [if_pos hk, hk]
      rcases ho : dlookup d k with _ | x
      · unfold dcontains at hc; rw [ho] at hc; simp at hc
      · rfl
    · rw [if_neg hk]
  · rw [if_neg hc, dlookup_append]
    by_cases hk : k' = k
    · rw [if_pos hk, hk]
      have ho : dlookup d k = none := by
        unfold dcontains at hc
        rcases hl : dlookup d k with _ | x
        · rfl
        · rw [hl] at hc; simp at hc
      rw [ho, dlookup, if_pos rfl]
    · rw [if_neg hk, dlookup, if_neg (fun h : k = k' => hk h.symm)]
      rcases dlookup d k' with _ | x <;> rfl

theorem popStep_fst_self (g : List String) (pfx : String)
    (dflts ovrd : List (String × PyVal))
    (st : List (String × PyVal) × List (String × PyVal)) (pname : String) :
    dlookup (popStep g pfx dflts ovrd st pname).1 pname =
      (if dcontains st.2 (pfx ++ pname) = true then dlookup st.2 (pfx ++ pname)
       else if ((traitOf pname).getD "") ∉ g ∧
           dcontains st.2 (pfx ++ ((traitOf pname).getD "")) = true then
         dlookup st.2 (pfx ++ ((traitOf pname).getD ""))
       else if dcontains ovrd ((traitOf pname).getD "") = true then
         dlookup ovrd ((traitOf pname).getD "")
       else if dcontains dflts pname = true then dlookup dflts pname
       else if dcontains trait_defaults ((traitOf pname).getD "") = true then
         dlookup trait_defaults ((traitOf pname).getD "")
       else dlookup st.1 pname) := by
  unfold popStep
  by_cases h1 : dcontains st.2 (pfx ++ pname) = true
  · rw [if_pos h1, if_pos h1]
    dsimp only
    rw [dlookup_dinsert, if_pos rfl, some_getD _ _ h1]
  · rw [if_neg h1, if_neg h1]
    by_cases h2 : ((traitOf pname).getD "") ∉ g ∧
        dcontains st.2 (pfx ++ ((traitOf pname).getD "")) = true
    · rw [if_pos h2, if_pos h2]
      dsimp only
      rw [dlookup_dinsert, if_pos rfl, some_getD _ _ h2.2]
    · rw [if_neg h2, if_neg h2]
      by_cases h3 : dcontains ovrd ((traitOf pname).getD "") = true
      · rw [if_pos h3, if_pos h3]
        dsimp only
        rw [dlookup_dinsert, if_pos rfl, some_getD _ _ h3]
      · rw [if_neg h3, if_neg h3]
        by_cases h4 : dcontains dflts pname = true
        · rw [if_pos h4, if_pos h4]
          dsimp only
          rw [dlookup_dinsert, if_pos rfl, some_getD _ _ h4]
        · rw [if_neg h4, if_neg h4]
          by_cases h5 : dcontains trait_defaults ((traitOf pname).getD "") = true
          · rw [if_pos h5, if_pos h5]
            dsimp only
            rw [dlookup_dinsert, if_pos rfl, some_getD _ _ h5]
          · rw [if_neg h5, if_neg h5]

theorem cascade_tail (dflts : List (String × PyVal)) (pname tr : String) :
    (if dcontains (dsetdefault dflts "text_color" (.str "black")) pname = true then
       dlookup (dsetdefault dflts "text_color" (.str "black")) pname
     else if dcontains trait_defaults tr = true then dlookup trait_defaults tr
     else none) =
    (if dcontains dflts pname = true then dlookup dflts pname
     else if pname = "text_color" then some (.str "black")
     else if tr = "color" then some get_default_color
     else if tr = "alpha" then some (.num 1)
     else none) := by
  have hset : dlookup (dsetdefault dflts "text_color" (PyVal.str "black")) pname =
      if pname = "text_color" then (dlookup dflts pname).or (some (.str "black"))
      else dlookup dflts pname := by
    rw [dlookup_dsetdefault]
    by_cases hp : pname = "text_color"
    · rw [if_pos hp, if_pos hp, hp]
    · rw [if_neg hp, if_neg hp]
  by_cases hp : pname = "text_color"
  · have hcon : dcontains (dsetdefault dflts "text_color" (PyVal.str "black")) pname
        = true := by
      unfold dcontains
      rw [hset, if_pos hp]
      rcases dlookup dflts pname with _ | x <;> rfl
    rw [if_pos hcon, hset, if_pos hp]
    by_cases hd : dcontains dflts pname = true
    · rw [if_pos hd]
      rcases ho : dlookup dflts pname with _ | x
      · unfold dcontains at hd; rw [ho] at hd; simp at hd
      · rfl
    · rw [if_neg hd, if_pos hp]
      have ho : dlookup dflts pname = none := by
        unfold dcontains at hd
        rcases hl : dlookup dflts pname with _ | x
        · rfl
        · rw [hl] at hd; simp at hd
      rw [ho]
      rfl
  · have hcon : dcontains (dsetdefault dflts "text_color" (PyVal.str "black")) pname
        = dcontains dflts pname := by
      unfold dcontains
      rw [hset, if_neg hp]
    rw [hcon, hset, if_neg hp]
    by_cases hd : dcontains dflts pname = true
    · rw [if_pos hd, if_pos hd]
    · rw [if_neg hd, if_neg hd, if_neg hp]
      by_cases hco : tr = "color"
      · have : dcontains trait_defaults tr = true := by
          rw [hco]; rfl
        rw [if_pos this, if_pos hco, hco]
        rfl
      · by_cases hal : tr = "alpha"
        · have : dcontains trait_defaults tr = true := by
            rw [hal]; rfl
          rw [if_pos this, if_neg hco, if_pos hal, hal]
          unfold trait_defaults dlookup
          rw [if_neg (by intro h; exact hco (by rw [← h] at hal; exact hal) : ¬ "color" = "alpha"), dlookup, if_pos rfl]
        · have : ¬ dcontains trait_defaults tr = true := by
            unfold trait_defaults dcontains dlookup
            rw [if_neg (fun h : "color" = tr => hco h.symm), dlookup,
              if_neg (fun h : "alpha" = tr => hal h.symm)]
            simp [dlookup]
          rw [if_neg this, if_neg hco, if_neg hal]

/-- C1: for every visual property name pname of the glyph class (feature
in line, fill, text, global), _pop_visuals chooses the result value for
pname by exactly the five-tier precedence: prefixed key in props, then
aliased trait key in props when the trait is not itself a glyph property,
then override default, then glyph-level default, then the global trait
default (black for text_color, first palette color for trait color, one
for trait alpha); when no tier applies the property is absent from the
returned dict. -/
theorem c1_pop_visuals_five_tier_cascade
    (g : List String) (props : List (String × PyVal)) (pfx : String)
    (dflts ovrd : List (String × PyVal)) (pname : String)
    (hnd : g.Nodup) (hmem : pname ∈ g) (hvis : is_visual pname = true) :
    dlookup (_pop_visuals g props pfx dflts ovrd).1 pname =
      cascadeSpec g props dflts ovrd pfx pname := by
  have hv : pname ∈ g.filter is_visual := List.mem_filter.mpr ⟨hmem, hvis⟩
  have hvn : (g.filter is_visual).Nodup := hnd.filter _
  obtain ⟨L1, L2, hsplit⟩ := List.append_of_mem hv
  have hnd2 : (L1 ++ pname :: L2).Nodup := hsplit ▸ hvn
  have hnL1 : pname ∉ L1 := by
    intro hmem1
    rcases List.nodup_append.mp hnd2 with ⟨_, _, hdisj⟩
    exact hdisj hmem1 (List.mem_cons_self _ _)
  have hnL2 : pname ∉ L2 := by
    rcases List.nodup_append.mp hnd2 with ⟨_, hn2, _⟩
    exact (List.nodup_cons.mp hn2).1
  have hL1g : ∀ p ∈ L1, p ∈ g := by
    intro p hp
    have hpv : p ∈ g.filter is_visual := by
      rw [hsplit]; exact List.mem_append_left _ hp
    exact (List.mem_filter.mp hpv).1
  have hres : (_pop_visuals g props pfx dflts ovrd).1 =
      ((g.filter is_visual).foldl
        (popStep g pfx (dsetdefault dflts "text_color" (.str "black")) ovrd)
        ([], props)).1 := rfl
  rw [hres, hsplit, List.foldl_append, List.foldl_cons,
    foldl_popStep_fst_stable g pfx (dsetdefault dflts "text_color" (.str "black"))
      ovrd pname L2 _ (fun p hp he => hnL2 (he.symm ▸ hp))]
  have hsnd : (L1.foldl
      (popStep g pfx (dsetdefault dflts "text_color" (.str "black")) ovrd)
      ([], props)).2 = L1.foldl (fun pr p => derase pr (pfx ++ p)) props := by
    rw [foldl_popStep_snd]
  have ha : dlookup (L1.foldl
      (popStep g pfx (dsetdefault dflts "text_color" (.str "black")) ovrd)
      ([], props)).2 (pfx ++ pname) = dlookup props (pfx ++ pname) := by
    rw [hsnd, foldl_derase_lookup, if_neg]
    rintro ⟨p, hp, he⟩
    exact hnL1 ((str_append_cancel pfx p pname he) ▸ hp)
  have ha' : dcontains (L1.foldl
      (popStep g pfx (dsetdefault dflts "text_color" (.str "black")) ovrd)
      ([], props)).2 (pfx ++ pname) = dcontains props (pfx ++ pname) := by
    unfold dcontains
    rw [ha]
  have hb : ((traitOf pname).getD "") ∉ g →
      dlookup (L1.foldl
        (popStep g pfx (dsetdefault dflts "text_color" (.str "black")) ovrd)
        ([], props)).2 (pfx ++ ((traitOf pname).getD "")) =
      dlookup props (pfx ++ ((traitOf pname).getD "")) := by
    intro htg
    rw [hsnd, foldl_derase_lookup, if_neg]
    rintro ⟨p, hp, he⟩
    exact htg ((str_append_cancel pfx p _ he) ▸ hL1g p hp)
  have hc : dlookup (L1.foldl
      (popStep g pfx (dsetdefault dflts "text_color" (.str "black")) ovrd)
      ([], props)).1 pname = none := by
    rw [foldl_popStep_fst_stable g pfx (dsetdefault dflts "text_color" (.str "black"))
      ovrd pname L1 _ (fun p hp he => hnL1 (he.symm ▸ hp))]
    rfl
  rw [popStep_fst_self]
  unfold cascadeSpec
  set st1 := L1.foldl
    (popStep g pfx (dsetdefault dflts "text_color" (.str "black")) ovrd)
    ([], props) with hst1
  by_cases c1 : dcontains props (pfx ++ pname) = true
  · have c1L : dcontains st1.2 (pfx ++ pname) = true := by rw [ha']; exact c1
    rw [if_pos c1L, if_pos c1, ha]
  · have c1L : ¬ dcontains st1.2 (pfx ++ pname) = true := by rw [ha']; exact c1
    rw [if_neg c1L, if_neg c1]
    by_cases tin : ((traitOf pname).getD "") ∈ g
    · have h2L : ¬ (((traitOf pname).getD "") ∉ g ∧
          dcontains st1.2 (pfx ++ ((traitOf pname).getD "")) = true) :=
        fun h => h.1 tin
      have h2R : ¬ (((traitOf pname).getD "") ∉ g ∧
          dcontains props (pfx ++ ((traitOf pname).getD "")) = true) :=
        fun h => h.1 tin
      rw [if_neg h2L, if_neg h2R]
      by_cases c3 : dcontains ovrd ((traitOf pname).getD "") = true
      · rw [if_pos c3, if_pos c3]
      · rw [if_neg c3, if_neg c3, hc]
        exact cascade_tail dflts pname ((traitOf pname).getD "")
    · have hb' := hb tin
      have hb'' : dcontains st1.2 (pfx ++ ((traitOf pname).getD "")) =
          dcontains props (pfx ++ ((traitOf pname).getD "")) := by
        unfold dcontains
        rw [hb']
      by_cases c2 : dcontains props (pfx ++ ((traitOf pname).getD "")) = true
      · have c2L : dcontains st1.2 (pfx ++ ((traitOf pname).getD "")) = true := by
          rw [hb'']; exact c2
        have h2L : ((traitOf pname).getD "") ∉ g ∧
            dcontains st1.2 (pfx ++ ((traitOf pname).getD "")) = true := ⟨tin, c2L⟩
        have h2R : ((traitOf pname).getD "") ∉ g ∧
            dcontains props (pfx ++ ((traitOf pname).getD "")) = true := ⟨tin, c2⟩
        rw [if_pos h2L, if_pos h2R, hb']
      · have h2L : ¬ (((traitOf pname).getD "") ∉ g ∧
            dcontains st1.2 (pfx ++ ((traitOf pname).getD "")) = true) :=
          fun h => c2 (by rw [← hb'']; exact h.2)
        have h2R : ¬ (((traitOf pname).getD "") ∉ g ∧
            dcontains props (pfx ++ ((traitOf pname).getD "")) = true) :=
          fun h => c2 h.2
        rw [if_neg h2L, if_neg h2R]
        by_cases c3 : dcontains ovrd ((traitOf pname).getD "") = true
        · rw [if_pos c3, if_pos c3]
        · rw [if_neg c3, if_neg c3, hc]
          exact cascade_tail dflts pname ((traitOf pname).getD "")

/-- Witness for C1: a concrete glyph class and props where the second
tier (aliased trait key) decides the value of line_alpha. -/
theorem c1_witness :
    dlookup (_pop_visuals ["line_color", "line_alpha", "line_width", "text_color"]
      [("line_color", .str "red"), ("alpha", .num 2)] "" [] []).1 "line_alpha" =
      cascadeSpec ["line_color", "line_alpha", "line_width", "text_color"]
        [("line_color", .str "red"), ("alpha", .num 2)] [] [] "" "line_alpha" ∧
    cascadeSpec ["line_color", "line_alpha", "line_width", "text_color"]
      [("line_color", .str "red"), ("alpha", .num 2)] [] [] "" "line_alpha" =
      some (.num 2) :=
  ⟨c1_pop_visuals_five_tier_cascade _ _ _ _ _ _ (by decide) (by decide) (by decide),
   by decide⟩

theorem dlookup_eq_none_of_not_contains {α : Type} (d : List (String × α))
    (k : String) (h : ¬ dcontains d k = true) : dlookup d k = none := by
  unfold dcontains at h
  rcases hl : dlookup d k with _ | x
  · rfl
  · rw [hl] at h; simp at h

/-- C7: the only mutation _pop_visuals performs on the caller props is
removal of the keys described by removedKey; every other key keeps its
original value and nothing is added or overwritten. -/
theorem c7_pop_visuals_only_removes_keys
    (g : List String) (props : List (String × PyVal)) (pfx : String)
    (dflts ovrd : List (String × PyVal)) (k : String) :
    dlookup (_pop_visuals g props pfx dflts ovrd).2 k =
      if removedKey g pfx props k then none else dlookup props k := by
  have h0 : (_pop_visuals g props pfx dflts ovrd).2 =
      (((g.filter is_visual).map (fun p => (traitOf p).getD "")).filter
          (fun t => ¬ t ∈ g)).foldl (fun pr t => derase pr (pfx ++ t))
        ((g.filter is_visual).foldl
          (popStep g pfx (dsetdefault dflts "text_color" (.str "black")) ovrd)
          ([], props)).2 := rfl
  rw [h0, foldl_popStep_snd, foldl_derase_lookup, foldl_derase_lookup]
  by_cases hE1 : ∃ t ∈ ((g.filter is_visual).map (fun p => (traitOf p).getD "")).filter
      (fun t => ¬ t ∈ g), pfx ++ t = k
  · have hD2 : removedKey g pfx props k := by
      obtain ⟨t, ht, hk⟩ := hE1
      rw [List.mem_filter] at ht
      obtain ⟨htm, htg⟩ := ht
      rw [List.mem_map] at htm
      obtain ⟨p, hpv, hpt⟩ := htm
      rw [List.mem_filter] at hpv
      refine Or.inr ⟨p, hpv.1, hpv.2, ?_, ?_⟩
      · rw [hpt]; exact of_decide_eq_true htg
      · rw [hpt]; exact hk.symm
    rw [if_pos hE1, if_pos hD2]
  · rw [if_neg hE1]
    by_cases hE2 : ∃ p ∈ g.filter is_visual, pfx ++ p = k
    · rw [if_pos hE2]
      by_cases hcon : dcontains props k = true
      · have hD1 : removedKey g pfx props k := by
          obtain ⟨p, hp, hk⟩ := hE2
          rw [List.mem_filter] at hp
          exact Or.inl ⟨p, hp.1, hp.2, hk.symm, hcon⟩
        rw [if_pos hD1]
      · rw [dlookup_eq_none_of_not_contains props k hcon]
        by_cases hrk : removedKey g pfx props k
        · rw [if_pos hrk]
        · rw [if_neg hrk]
    · rw [if_neg hE2]
      have hnrk : ¬ removedKey g pfx props k := by
        intro hrk
        rcases hrk with ⟨p, hpg, hpv, hk, hcon⟩ | ⟨p, hpg, hpv, htg, hk⟩
        · exact hE2 ⟨p, List.mem_filter.mpr ⟨hpg, hpv⟩, hk.symm⟩
        · refine hE1 ⟨(traitOf p).getD "", ?_, hk.symm⟩
          rw [List.mem_filter]
          refine ⟨List.mem_map.mpr ⟨p, List.mem_filter.mpr ⟨hpg, hpv⟩, rfl⟩, ?_⟩
          exact decide_eq_true htg
      rw [if_neg hnrk]

/-- A fallible computation succeeded (the Python call returned instead
of raising). -/
def exOk {ε α : Type} : Except ε α → Bool
  | .ok _ => true
  | .error _ => false

/-- The four mutually exclusive legend keyword arguments. -/
def _LEGEND_ARGS : List String := ["legend", "legend_label", "legend_field", "legend_group"]

/-- One step of the dict comprehension of _pop_legend_kwarg: pop attr
from kwargs into the result when present. -/
def legendStep (st : List (String × PyVal) × List (String × PyVal)) (attr : String) :
    List (String × PyVal) × List (String × PyVal) :=
  if dcontains st.2 attr = true then
    (dinsert st.1 attr ((dlookup st.2 attr).getD (.other "")), derase st.2 attr)
  else st

/-- Pop the legend keyword arguments out of kwargs; raise when more than
one was supplied.  Returns the pair (result, remaining kwargs). -/
def _pop_legend_kwarg (kwargs : List (String × PyVal)) :
    Except String (List (String × PyVal) × List (String × PyVal)) :=
  let st := _LEGEND_ARGS.foldl legendStep ([], kwargs)
  if 1 < st.1.length then
    .error "Only one of legend, legend_label, legend_field, legend_group may be provided"
  else .ok st

theorem legendStep_pos (r0 kw0 : List (String × PyVal)) (a : String)
    (h : dcontains kw0 a = true) :
    legendStep (r0, kw0) a =
      (dinsert r0 a ((dlookup kw0 a).getD (.other "")), derase kw0 a) := by
  unfold legendStep
  dsimp only
  rw [if_pos h]

theorem legendStep_neg (r0 kw0 : List (String × PyVal)) (a : String)
    (h : ¬ dcontains kw0 a = true) :
    legendStep (r0, kw0) a = (r0, kw0) := by
  unfold legendStep
  dsimp only
  rw [if_neg h]

theorem legend_fold_keys (kwargs : List (String × PyVal)) :
    ∀ (attrs : List String) (r0 kw0 : List (String × PyVal)),
      attrs.Nodup →
      (∀ a ∈ attrs, dlookup kw0 a = dlookup kwargs a) →
      (∀ a ∈ attrs, dcontains r0 a = false) →
      ((attrs.foldl legendStep (r0, kw0)).1).map Prod.fst =
        r0.map Prod.fst ++ attrs.filter (fun a => dcontains kwargs a) := by
  intro attrs
  induction attrs with
  | nil => intro r0 kw0 _ _ _; simp
  | cons a rest ih =>
    intro r0 kw0 hnd hag hr0
    have hna : a ∉ rest := (List.nodup_cons.mp hnd).1
    have hag_a : dlookup kw0 a = dlookup kwargs a := hag a (List.mem_cons_self _ _)
    have hconeq : dcontains kw0 a = dcontains kwargs a := by
      unfold dcontains; rw [hag_a]
    rw [List.foldl_cons]
    by_cases hc : dcontains kw0 a = true
    · rw [legendStep_pos r0 kw0 a hc]
      rw [ih (dinsert r0 a ((dlookup kw0 a).getD (.other ""))) (derase kw0 a)
        (List.nodup_cons.mp hnd).2
        (fun b hb => by
          rw [dlookup_derase, if_neg (fun hba : b = a => hna (hba ▸ hb))]
          exact hag b (List.mem_cons_of_mem _ hb))
        (fun b hb => by
          unfold dcontains
          rw [dlookup_dinsert, if_neg (fun hba : b = a => hna (hba ▸ hb))]
          exact hr0 b (List.mem_cons_of_mem _ hb))]
      rw [dinsert_of_not_contains r0 a _ (hr0 a (List.mem_cons_self _ _))]
      have hfa : (a :: rest).filter (fun b => dcontains kwargs b) =
          a :: rest.filter (fun b => dcontains kwargs b) := by
        rw [List.filter_cons, if_pos (by rw [← hconeq]; exact hc)]
      rw [hfa]
      simp
    · rw [legendStep_neg r0 kw0 a hc]
      rw [ih r0 kw0 (List.nodup_cons.mp hnd).2
        (fun b hb => hag b (List.mem_cons_of_mem _ hb))
        (fun b hb => hr0 b (List.mem_cons_of_mem _ hb))]
      have hfa : (a :: rest).filter (fun b => dcontains kwargs b) =
          rest.filter (fun b => dcontains kwargs b) := by
        rw [List.filter_cons, if_neg (by rw [← hconeq]; exact hc)]
      rw [hfa]

/-- C2: _pop_legend_kwarg raises exactly when more than one of the four
legend keyword arguments is present; otherwise it returns a dict whose
keys are exactly the present legend arguments (one or none). -/
theorem c2_pop_legend_kwarg_validation (kwargs : List (String × PyVal)) :
    (exOk (_pop_legend_kwarg kwargs) = true ↔
      (_LEGEND_ARGS.filter (fun a => dcontains kwargs a)).length ≤ 1) ∧
    (∀ res, _pop_legend_kwarg kwargs = .ok res →
      res.1.map Prod.fst = _LEGEND_ARGS.filter (fun a => dcontains kwargs a)) := by
  have hkeys : ((_LEGEND_ARGS.foldl legendStep ([], kwargs)).1).map Prod.fst =
      _LEGEND_ARGS.filter (fun a => dcontains kwargs a) := by
    have h := legend_fold_keys kwargs _LEGEND_ARGS [] kwargs (by decide)
      (fun a _ => rfl) (fun a _ => rfl)
    simpa using h
  have hlen : (_LEGEND_ARGS.foldl legendStep ([], kwargs)).1.length =
      (_LEGEND_ARGS.filter (fun a => dcontains kwargs a)).length := by
    rw [← hkeys, List.length_map]
  unfold _pop_legend_kwarg
  by_cases h : 1 < (_LEGEND_ARGS.foldl legendStep ([], kwargs)).1.length
  · rw [if_pos h]
    constructor
    · constructor
      · intro hok; simp [exOk] at hok
      · intro hle; rw [hlen] at h; omega
    · intro res hres; cases hres
  · rw [if_neg h]
    constructor
    · constructor
      · intro _; rw [hlen] at h; omega
      · intro _; rfl
    · intro res hres
      have hr := Except.ok.inj hres
      rw [← hr]
      exact hkeys

/-- Witness for C2: with exactly one legend argument present
_pop_legend_kwarg succeeds and yields exactly that key. -/
theorem c2_witness :
    (([("legend_label", PyVal.str "x")], [("color", PyVal.str "red")]) :
        List (String × PyVal) × List (String × PyVal)).1.map Prod.fst =
      _LEGEND_ARGS.filter
        (fun a => dcontains [("legend_label", PyVal.str "x"),
          ("color", PyVal.str "red")] a) :=
  (c2_pop_legend_kwarg_validation
    [("legend_label", PyVal.str "x"), ("color", PyVal.str "red")]).2 _ rfl

/-- Modelled from the spec: the Tool classes come from the external
framework (bokeh.models, not under src); following the glossary a tool
is an interactive plot control, modelled here as a datatype recording
which class was constructed and with which arguments. -/
inductive Tool where
  | panTool (dimensions : String)
  | wheelPanTool (dimension : String)
  | wheelZoomTool (dimensions : String)
  | zoomInTool (dimensions : String)
  | zoomOutTool (dimensions : String)
  | tapTool (behavior : Option String)
  | crosshairTool
  | boxSelectTool (dimensions : Option String)
  | polySelectTool
  | lassoSelectTool
  | boxZoomTool (dimensions : String)
  | hoverTool (tooltips : List (String × String))
  | saveTool
  | undoTool
  | redoTool
  | resetTool
  | helpTool
  | boxEditTool
  | pointDrawTool
  | polyDrawTool
  | polyEditTool
deriving DecidableEq, Repr

/-- A value of the known-tools table: a zero-argument constructor lambda
(which always builds the same tool) or a string alias for another key. -/
inductive ToolEntry where
  | ctor (t : Tool)
  | alias (s : String)

/-- The known-tools table, in source order. -/
def _known_tools : List (String × ToolEntry) :=
  [("pan", .ctor (.panTool "both")),
   ("xpan", .ctor (.panTool "width")),
   ("ypan", .ctor (.panTool "height")),
   ("xwheel_pan", .ctor (.wheelPanTool "width")),
   ("ywheel_pan", .ctor (.wheelPanTool "height")),
   ("wheel_zoom", .ctor (.wheelZoomTool "both")),
   ("xwheel_zoom", .ctor (.wheelZoomTool "width")),
   ("ywheel_zoom", .ctor (.wheelZoomTool "height")),
   ("zoom_in", .ctor (.zoomInTool "both")),
   ("xzoom_in", .ctor (.zoomInTool "width")),
   ("yzoom_in", .ctor (.zoomInTool "height")),
   ("zoom_out", .ctor (.zoomOutTool "both")),
   ("xzoom_out", .ctor (.zoomOutTool "width")),
   ("yzoom_out", .ctor (.zoomOutTool "height")),
   ("click", .ctor (.tapTool (some "inspect"))),
   ("tap", .ctor (.tapTool none)),
   ("crosshair", .ctor .crosshairTool),
   ("box_select", .ctor (.boxSelectTool none)),
   ("xbox_select", .ctor (.boxSelectTool (some "width"))),
   ("ybox_select", .ctor (.boxSelectTool (some "height"))),
   ("poly_select", .ctor .polySelectTool),
   ("lasso_select", .ctor .lassoSelectTool),
   ("box_zoom", .ctor (.boxZoomTool "both")),
   ("xbox_zoom", .ctor (.boxZoomTool "width")),
   ("ybox_zoom", .ctor (.boxZoomTool "height")),
   ("hover", .ctor (.hoverTool
     [("index", "$index"),
      ("data (x, y)", "($x, $y)"),
      ("screen (x, y)", "($sx, $sy)")])),
   ("save", .ctor .saveTool),
   ("previewsave", .alias "save"),
   ("undo", .ctor .undoTool),
   ("redo", .ctor .redoTool),
   ("reset", .ctor .resetTool),
   ("help", .ctor .helpTool),
   ("box_edit", .ctor .boxEditTool),
   ("point_draw", .ctor .pointDrawTool),
   ("poly_draw", .ctor .polyDrawTool),
   ("poly_edit", .ctor .polyEditTool)]

/-- Modelled from the spec: bokeh.util.string.nice_join is not under
src; the error-message claims only need that the join of the candidate
names is some string, so it is modelled as a comma join. -/
def nice_join (xs : List String) : String := String.intercalate ", " xs

/-- Insert a string into a sorted list (helper of sortStr). -/
def insortStr (s : String) : List String → List String
  | [] => [s]
  | t :: ts => if s ≤ t then s :: t :: ts else t :: insortStr s ts

/-- Python sorted on a list of strings (insertion sort). -/
def sortStr : List String → List String
  | [] => []
  | t :: ts => insortStr t (sortStr ts)

theorem mem_insortStr (a s : String) (l : List String) :
    a ∈ insortStr s l ↔ a = s ∨ a ∈ l := by
  induction l with
  | nil => simp [insortStr]
  | cons t ts ih =>
    by_cases h : s ≤ t
    · simp [insortStr, h]
    · simp only [insortStr, if_neg h, List.mem_cons, ih]
      tauto

theorem mem_sortStr (a : String) (l : List String) : a ∈ sortStr l ↔ a ∈ l := by
  induction l with
  | nil => simp [sortStr]
  | cons t ts ih =>
    rw [sortStr, mem_insortStr, ih, List.mem_cons]

/-- A single quote character, used in the error message. -/
def sqChar : String := String.singleton (Char.ofNat 39)

/-- The unexpected-tool error message of _tool_from_string. -/
def toolErrMsg (cands : List String) (text name : String) : String :=
  ("unexpected tool name " ++ sqChar) ++ name ++
    (sqChar ++ ", " ++ text ++ " tools are " ++ nice_join cands)

/-- Resolve a known-tools entry: call the constructor, following one
string alias first when the entry is a string. -/
def resolveEntry (name : String) : Except String Tool :=
  match dlookup _known_tools name with
  | some (.ctor t) => .ok t
  | some (.alias s) =>
    match dlookup _known_tools s with
    | some (.ctor t) => .ok t
    | _ => .error "TypeError: tool entry is not callable"
  | none => .error "KeyError"

/-- Takes a string and returns the corresponding Tool instance, raising
on unknown names.  The close-matches helper of difflib (standard
library, external) is passed in as the function cm. -/
def _tool_from_string (cm : String → List String) (name : String) :
    Except String Tool :=
  if name ∈ sortStr (_known_tools.map Prod.fst) then resolveEntry name
  else if (cm name.toLower).isEmpty = true then
    .error (toolErrMsg (sortStr (_known_tools.map Prod.fst)) "possible" name)
  else .error (toolErrMsg (cm name.toLower) "similar" name)

/-- C3: _tool_from_string returns a Tool exactly for the keys of the
known-tools table, with previewsave resolving to the save constructor,
and for any other string it raises a ValueError whose message names the
unexpected tool. -/
theorem c3_tool_from_string_known_iff (cm : String → List String) (name : String) :
    (exOk (_tool_from_string cm name) = true ↔ name ∈ _known_tools.map Prod.fst) ∧
    (_tool_from_string cm "previewsave" = .ok .saveTool ∧
      _tool_from_string cm "save" = .ok .saveTool) ∧
    (name ∉ _known_tools.map Prod.fst →
      ∃ tail, _tool_from_string cm name =
        .error (("unexpected tool name " ++ sqChar) ++ name ++ tail)) := by
  have hprev : ∀ nm, nm ∈ _known_tools.map Prod.fst →
      _tool_from_string cm nm = resolveEntry nm := by
    intro nm h
    unfold _tool_from_string
    rw [if_pos ((mem_sortStr nm _).mpr h)]
  have hresolve : ∀ nm ∈ _known_tools.map Prod.fst, exOk (resolveEntry nm) = true :=
    by decide
  refine ⟨⟨?_, ?_⟩, ⟨?_, ?_⟩, ?_⟩
  · intro hok
    by_contra hne
    unfold _tool_from_string at hok
    rw [if_neg (fun h => hne ((mem_sortStr name _).mp h))] at hok
    by_cases hcm : (cm name.toLower).isEmpty = true
    · rw [if_pos hcm] at hok
      simp [exOk] at hok
    · rw [if_neg hcm] at hok
      simp [exOk] at hok
  · intro hmem
    rw [hprev name hmem]
    exact hresolve name hmem
  · rw [hprev "previewsave" (by decide)]
    rfl
  · rw [hprev "save" (by decide)]
    rfl
  · intro hne
    unfold _tool_from_string
    rw [if_neg (fun h => hne ((mem_sortStr name _).mp h))]
    by_cases hcm : (cm name.toLower).isEmpty = true
    · rw [if_pos hcm]
      exact ⟨_, rfl⟩
    · rw [if_neg hcm]
      exact ⟨_, rfl⟩

/-- Witness for C3: an unknown name produces an error message naming it. -/
theorem c3_witness :
    ∃ tail, _tool_from_string (fun _ => []) "xyz" =
      .error (("unexpected tool name " ++ sqChar) ++ "xyz" ++ tail) :=
  (c3_tool_from_string_known_iff (fun _ => []) "xyz").2.2 (by decide)

/-- Python isinstance of str for an embedded value. -/
def isStr : PyVal → Bool
  | .str _ => true
  | _ => false

/-- Modelled from the spec: the Range classes come from the external
framework (bokeh.models, not under src); a range object records which
class was constructed and with which arguments.  Range1d construction is
modelled as total: the spec does not describe the constructor validation
whose ValueError the source catches, so the catch branch never fires in
the model. -/
inductive RangeObj where
  | dataRange1d
  | range1d (start endv : PyVal)
  | factorRange (factors : List PyVal)
deriving DecidableEq, Repr

/-- The dynamic argument of _get_range: Python None, a pandas GroupBy, a
Range instance, a pandas Series, a sequence or ndarray, or anything
else. -/
inductive RangeInput where
  | pynone
  | groupby (keys : List String)
  | rng (r : RangeObj)
  | series (vals : List PyVal)
  | seq (vals : List PyVal)
  | other (tag : String)

/-- The sequence branch of _get_range: all-strings sequences become a
FactorRange, two-element sequences a Range1d, anything else raises. -/
def _range_from_seq (vals : List PyVal) : Except String RangeObj :=
  if vals.all isStr = true then .ok (.factorRange vals)
  else if vals.length = 2 then
    .ok (.range1d (vals.getD 0 (.other "")) (vals.getD 1 (.other "")))
  else .error "Unrecognized range input"

/-- Classify a range input into a Range model object.  A Series is
reduced to its values and then treated as a sequence, as in the source
(pandas is taken as importable). -/
def _get_range : RangeInput → Except String RangeObj
  | .pynone => .ok .dataRange1d
  | .groupby keys => .ok (.factorRange ((sortStr keys).map PyVal.str))
  | .rng r => .ok r
  | .series vals => _range_from_seq vals
  | .seq vals => _range_from_seq vals
  | .other tag => .error ("Unrecognized range input: " ++ tag)

/-- Modelled from the spec: the Axis classes of the external framework
(bokeh.models, not under src). -/
inductive AxisClass where
  | linearAxis
  | logAxis
  | datetimeAxis
  | mercatorAxis
  | categoricalAxis
deriving DecidableEq, Repr

/-- Map an axis_type to an axis class and extra keyword arguments.  The
Datetime.validate check of the external property system is passed in as
the predicate dtValid (its try-except reduced to a Bool). -/
def _get_axis_class (dtValid : PyVal → Bool) (axis_type : Option String)
    (range_input : RangeObj) (dim : Nat) :
    Except String (Option AxisClass × List (String × String)) :=
  match axis_type with
  | none => .ok (none, [])
  | some t =>
    if t = "linear" then .ok (some .linearAxis, [])
    else if t = "log" then .ok (some .logAxis, [])
    else if t = "datetime" then .ok (some .datetimeAxis, [])
    else if t = "mercator" then
      .ok (some .mercatorAxis, [("dimension", if dim = 0 then "lon" else "lat")])
    else if t = "auto" then
      match range_input with
      | .factorRange _ => .ok (some .categoricalAxis, [])
      | .range1d s _ =>
        if dtValid s = true then .ok (some .datetimeAxis, [])
        else .ok (some .linearAxis, [])
      | _ => .ok (some .linearAxis, [])
    else .error ("Unrecognized axis_type: " ++ t)

/-- The dynamic num_minor_ticks argument: an int, Python None, a string,
or anything else. -/
inductive TicksArg where
  | int (n : Int)
  | pynone
  | pystr (s : String)
  | other (tag : String)
deriving DecidableEq, Repr

/-- Normalize num_minor_ticks: ints above one pass through, other ints
raise, None becomes zero, auto becomes ten for LogAxis and five
otherwise, and any other input falls off the end (Python returns None). -/
def _get_num_minor_ticks (axis_class : Option AxisClass)
    (num_minor_ticks : TicksArg) : Except String (Option Int) :=
  match num_minor_ticks with
  | .int n => if n ≤ 1 then .error "num_minor_ticks must be > 1" else .ok (some n)
  | .pynone => .ok (some 0)
  | .pystr s =>
    if s = "auto" then
      if axis_class = some .logAxis then .ok (some 10) else .ok (some 5)
    else .ok none
  | .other _ => .ok none

/-- C4: a two-element sequence that is not all strings produces a
Range1d whose start is the first element and whose end is the second. -/
theorem c4_get_range_two_element_range1d (a b : PyVal)
    (h : (isStr a && isStr b) = false) :
    _get_range (.seq [a, b]) = .ok (.range1d a b) := by
  have hall : [a, b].all isStr = false := by
    rw [List.all_cons, List.all_cons, List.all_nil, Bool.and_true]
    exact h
  simp only [_get_range, _range_from_seq]
  rw [hall, if_neg Bool.false_ne_true, if_pos (by rfl : [a, b].length = 2)]
  rfl

/-- Witness for C4: a numeric pair becomes a bounded range. -/
theorem c4_witness :
    _get_range (.seq [PyVal.num 0, PyVal.num 5]) =
      .ok (.range1d (.num 0) (.num 5)) :=
  c4_get_range_two_element_range1d _ _ (by decide)

/-- C9: _get_range maps None to a DataRange1d, and an empty sequence to
a FactorRange with empty factors (the all-strings test is vacuously true
and precedes the length-two test). -/
theorem c9_get_range_none_and_empty_seq :
    _get_range .pynone = .ok .dataRange1d ∧
    _get_range (.seq []) = .ok (.factorRange []) :=
  ⟨rfl, rfl⟩

/-- C5: _get_range raises for inputs in none of its recognized
categories, in particular for sequences neither all-strings nor of
length two, and _get_axis_class raises for every axis_type string
outside linear, log, datetime, mercator, auto. -/
theorem c5_get_range_axis_class_errors :
    (∀ tag : String, exOk (_get_range (.other tag)) = false) ∧
    (∀ vals : List PyVal, vals.all isStr = false → vals.length ≠ 2 →
      exOk (_get_range (.seq vals)) = false) ∧
    (∀ (dtValid : PyVal → Bool) (s : String) (rng : RangeObj) (dim : Nat),
      s ∉ ["linear", "log", "datetime", "mercator", "auto"] →
      exOk (_get_axis_class dtValid (some s) rng dim) = false) := by
  refine ⟨fun tag => rfl, ?_, ?_⟩
  · intro vals hall hlen
    simp only [_get_range, _range_from_seq]
    rw [hall, if_neg Bool.false_ne_true, if_neg hlen]
    rfl
  · intro dtValid s rng dim hs
    simp only [_get_axis_class]
    rw [if_neg (fun h : s = "linear" => hs (by rw [h]; decide)),
      if_neg (fun h : s = "log" => hs (by rw [h]; decide)),
      if_neg (fun h : s = "datetime" => hs (by rw [h]; decide)),
      if_neg (fun h : s = "mercator" => hs (by rw [h]; decide)),
      if_neg (fun h : s = "auto" => hs (by rw [h]; decide))]
    rfl

/-- Witness for C5: a three-element numeric sequence is rejected. -/
theorem c5_witness :
    exOk (_get_range (.seq [PyVal.num 1, PyVal.num 2, PyVal.num 3])) = false :=
  c5_get_range_axis_class_errors.2.1 [PyVal.num 1, PyVal.num 2, PyVal.num 3]
    (by decide) (by decide)

/-- C10: _get_num_minor_ticks passes ints above one through, raises on
ints at most one, maps None to zero, maps auto to ten for LogAxis and
five for any other axis class, and returns Python None on every other
input. -/
theorem c10_get_num_minor_ticks_cases (ac : Option AxisClass) (n : Int)
    (s tag : String) :
    (1 < n → _get_num_minor_ticks ac (.int n) = .ok (some n)) ∧
    (n ≤ 1 → exOk (_get_num_minor_ticks ac (.int n)) = false) ∧
    (_get_num_minor_ticks ac .pynone = .ok (some 0)) ∧
    (_get_num_minor_ticks (some .logAxis) (.pystr "auto") = .ok (some 10)) ∧
    (¬ ac = some .logAxis → _get_num_minor_ticks ac (.pystr "auto") = .ok (some 5)) ∧
    (¬ s = "auto" → _get_num_minor_ticks ac (.pystr s) = .ok none) ∧
    (_get_num_minor_ticks ac (.other tag) = .ok none) := by
  refine ⟨?_, ?_, rfl, ?_, ?_, ?_, rfl⟩
  · intro h
    simp only [_get_num_minor_ticks]
    rw [if_neg (by omega : ¬ n ≤ 1)]
  · intro h
    simp only [_get_num_minor_ticks]
    rw [if_pos h]
    rfl
  · simp [_get_num_minor_ticks]
  · intro h
    simp only [_get_num_minor_ticks, if_true]
    rw [if_neg h]
  · intro h
    simp only [_get_num_minor_ticks]
    rw [if_neg h]

/-- Witness for C10: the int three passes through unchanged. -/
theorem c10_witness : _get_num_minor_ticks none (.int 3) = .ok (some 3) :=
  (c10_get_num_minor_ticks_cases none 3 "" "").1 (by decide)

/-- A value as it appears in the stacking helpers: a plain scalar, a
list or tuple (the broadcastable kind), or a stack expression.  The
stack constructor is modelled from the spec: bokeh.transform.stack is
not under src and returns an expression object, modelled here as a value
recording the stacked field names in order. -/
inductive SVal where
  | py (v : PyVal)
  | seq (xs : List PyVal)
  | stackE (fields : List PyVal)
deriving DecidableEq, Repr

/-- The length of a value when it is a list or tuple. -/
def seqLen : SVal → Option Nat
  | .seq xs => some xs.length
  | _ => none

/-- Python isinstance of list or tuple. -/
def isSeqVal : SVal → Bool
  | .seq _ => true
  | _ => false

/-- The set of lengths of the list-or-tuple keyword values (a Python
set, modelled as a deduplicated list). -/
def stackLengths (kw : List (String × SVal)) : List Nat :=
  ((kw.map Prod.snd).filterMap seqLen).dedup

/-- The distinct errors of the stacking helpers. -/
inductive StackErr where
  | stackPropInKw (name : String)
  | unequalLengths
  | lengthMismatch
deriving DecidableEq, Repr

/-- The broadcasting length checks shared by _single_stack and
_double_stack. -/
def _stack_check (stackers : List PyVal) (kw : List (String × SVal)) :
    Option StackErr :=
  if 0 < (stackLengths kw).length then
    if (stackLengths kw).length ≠ 1 then some .unequalLengths
    else if (stackLengths kw).headI ≠ stackers.length then some .lengthMismatch
    else none
  else none

/-- The contribution of one keyword value to the dict of index i: the
i-th element for lists and tuples, the value itself otherwise. -/
def kwVal : SVal → Nat → SVal
  | .seq xs, i => .py (xs.getD i (.other "index error"))
  | v, _ => v

/-- Copy the keyword arguments into a stack dict at index i. -/
def stackKwFold (kw : List (String × SVal)) (i : Nat)
    (d : List (String × SVal)) : List (String × SVal) :=
  kw.foldl (fun d kv => dinsert d kv.1 (kwVal kv.2 i)) d

/-- The dict-building loop of _single_stack: the accumulator s carries
the stackers seen so far. -/
def _sstack_loop (spc : String) (kw : List (String × SVal)) :
    Nat → List PyVal → List PyVal → List (List (String × SVal))
  | _, _, [] => []
  | i, s, val :: rest =>
    stackKwFold kw i (dinsert [("name", .py val)] spc (.stackE (s ++ [val]))) ::
      _sstack_loop spc kw (i + 1) (s ++ [val]) rest

/-- Build one dict per stacker with a single cumulative stack spec. -/
def _single_stack (stackers : List PyVal) (spc : String)
    (kw : List (String × SVal)) : Except StackErr (List (List (String × SVal))) :=
  if dcontains kw spc = true then .error (.stackPropInKw spc)
  else match _stack_check stackers kw with
    | some e => .error e
    | none => .ok (_sstack_loop spc kw 0 [] stackers)

/-- The dict-building loop of _double_stack: s1 carries the stackers
seen so far; each step sets spc0 from s1 before appending and spc1
after. -/
def _dstack_loop (spc0 spc1 : String) (kw : List (String × SVal)) :
    Nat → List PyVal → List PyVal → List (List (String × SVal))
  | _, _, [] => []
  | i, s1, val :: rest =>
    stackKwFold kw i
      (dinsert (dinsert [("name", .py val)] spc0 (.stackE s1)) spc1
        (.stackE (s1 ++ [val]))) ::
      _dstack_loop spc0 spc1 kw (i + 1) (s1 ++ [val]) rest

/-- Build one dict per stacker with two staggered cumulative stack
specs. -/
def _double_stack (stackers : List PyVal) (spc0 spc1 : String)
    (kw : List (String × SVal)) : Except StackErr (List (List (String × SVal))) :=
  if dcontains kw spc0 = true then .error (.stackPropInKw spc0)
  else if dcontains kw spc1 = true then .error (.stackPropInKw spc1)
  else match _stack_check stackers kw with
    | some e => .error e
    | none => .ok (_dstack_loop spc0 spc1 kw 0 [] stackers)

theorem stack_check_some_of_bad (stackers : List PyVal)
    (kw : List (String × SVal))
    (hbad : ∃ l ∈ (kw.map Prod.snd).filterMap seqLen, l ≠ stackers.length) :
    ∃ e, _stack_check stackers kw = some e := by
  obtain ⟨l, hl, hln⟩ := hbad
  have hld : l ∈ stackLengths kw := List.mem_dedup.mpr hl
  have hpos : 0 < (stackLengths kw).length :=
    List.length_pos.mpr (List.ne_nil_of_mem hld)
  unfold _stack_check
  rw [if_pos hpos]
  by_cases h1 : (stackLengths kw).length ≠ 1
  · rw [if_pos h1]
    exact ⟨_, rfl⟩
  · rw [if_neg h1]
    obtain ⟨a, ha⟩ := List.length_eq_one.mp (not_not.mp h1)
    have hla : l = a := by
      rw [ha] at hld
      simpa using hld
    have hhead : (stackLengths kw).headI ≠ stackers.length := by
      rw [ha]
      simpa [hla] using hln
    rw [if_pos hhead]
    exact ⟨_, rfl⟩

theorem stack_check_none_of_no_seq (stackers : List PyVal)
    (kw : List (String × SVal))
    (hns : ∀ v ∈ kw.map Prod.snd, isSeqVal v = false) :
    _stack_check stackers kw = none := by
  have hlens : (kw.map Prod.snd).filterMap seqLen = [] := by
    rw [List.filterMap_eq_nil_iff]
    intro v hv
    rcases v with v | xs | fs
    · rfl
    · exact absurd (hns _ hv) (by simp [isSeqVal])
    · rfl
  unfold _stack_check stackLengths
  rw [hlens]
  simp

/-- C6: the stacking helpers raise whenever some list or tuple keyword
value has a length different from the number of stackers (covering both
unequal lengths among themselves and a common length different from the
stackers); with no list or tuple keyword arguments no length check can
fail, so the only possible error is the stack-property-in-kw check. -/
theorem c6_stack_broadcast_length_checks (stackers : List PyVal)
    (spc spc0 spc1 : String) (kw : List (String × SVal)) :
    ((∃ l ∈ (kw.map Prod.snd).filterMap seqLen, l ≠ stackers.length) →
      exOk (_single_stack stackers spc kw) = false ∧
      exOk (_double_stack stackers spc0 spc1 kw) = false) ∧
    ((∀ v ∈ kw.map Prod.snd, isSeqVal v = false) →
      (∀ e, _single_stack stackers spc kw = .error e →
        ∃ nm, e = .stackPropInKw nm) ∧
      (∀ e, _double_stack stackers spc0 spc1 kw = .error e →
        ∃ nm, e = .stackPropInKw nm)) := by
  constructor
  · intro hbad
    obtain ⟨e, he⟩ := stack_check_some_of_bad stackers kw hbad
    constructor
    · unfold _single_stack
      by_cases hc : dcontains kw spc = true
      · rw [if_pos hc]; rfl
      · rw [if_neg hc, he]
        rfl
    · unfold _double_stack
      by_cases hc0 : dcontains kw spc0 = true
      · rw [if_pos hc0]; rfl
      · rw [if_neg hc0]
        by_cases hc1 : dcontains kw spc1 = true
        · rw [if_pos hc1]; rfl
        · rw [if_neg hc1, he]
          rfl
  · intro hns
    have hnone := stack_check_none_of_no_seq stackers kw hns
    constructor
    · intro e he
      unfold _single_stack at he
      by_cases hc : dcontains kw spc = true
      · rw [if_pos hc] at he
        exact ⟨spc, (Except.error.inj he).symm⟩
      · rw [if_neg hc, hnone] at he
        cases he
    · intro e he
      unfold _double_stack at he
      by_cases hc0 : dcontains kw spc0 = true
      · rw [if_pos hc0] at he
        exact ⟨spc0, (Except.error.inj he).symm⟩
      · rw [if_neg hc0] at he
        by_cases hc1 : dcontains kw spc1 = true
        · rw [if_pos hc1] at he
          exact ⟨spc1, (Except.error.inj he).symm⟩
        · rw [if_neg hc1, hnone] at he
          cases he

/-- Witness for C6: a two-element keyword sequence with one stacker is
rejected by both helpers. -/
theorem c6_witness :
    exOk (_single_stack [PyVal.str "a"] "height"
      [("w", SVal.seq [PyVal.num 1, PyVal.num 2])]) = false ∧
    exOk (_double_stack [PyVal.str "a"] "bottom" "top"
      [("w", SVal.seq [PyVal.num 1, PyVal.num 2])]) = false :=
  (c6_stack_broadcast_length_checks [PyVal.str "a"] "height" "bottom" "top"
    [("w", SVal.seq [PyVal.num 1, PyVal.num 2])]).1 (by decide)

theorem dcontains_of_mem {α : Type} :
    ∀ (d : List (String × α)) (p : String × α), p ∈ d → dcontains d p.1 = true := by
  intro d
  induction d with
  | nil => intro p hp; cases hp
  | cons hd t ih =>
    intro p hp
    obtain ⟨k0, v0⟩ := hd
    rcases List.mem_cons.mp hp with rfl | hp'
    · unfold dcontains dlookup
      rw [if_pos rfl]
      rfl
    · unfold dcontains dlookup
      by_cases h : k0 = p.1
      · rw [if_pos h]
        rfl
      · rw [if_neg h]
        exact ih p hp'

theorem stackKwFold_lookup_not_mem (i : Nat) (k : String) :
    ∀ (kw d : List (String × SVal)),
      (∀ p ∈ kw, ¬ p.1 = k) →
      dlookup (stackKwFold kw i d) k = dlookup d k := by
  intro kw
  induction kw with
  | nil => intro d _; rfl
  | cons kv kw ih =>
    intro d h
    unfold stackKwFold
    rw [List.foldl_cons]
    have hih := ih (dinsert d kv.1 (kwVal kv.2 i))
      (fun p hp => h p (List.mem_cons_of_mem _ hp))
    unfold stackKwFold at hih
    rw [hih, dlookup_dinsert,
      if_neg (fun hh : k = kv.1 => h kv (List.mem_cons_self _ _) hh.symm)]

theorem stackKwFold_lookup_mem (i : Nat) :
    ∀ (kw d : List (String × SVal)) (k : String) (v : SVal),
      (kw.map Prod.fst).Nodup →
      dlookup kw k = some v →
      dlookup (stackKwFold kw i d) k = some (kwVal v i) := by
  intro kw
  induction kw with
  | nil => intro d k v _ h; simp [dlookup] at h
  | cons kv kw ih =>
    intro d k v hnd hkv
    obtain ⟨k0, v0⟩ := kv
    rw [List.map_cons] at hnd
    unfold stackKwFold
    rw [List.foldl_cons]
    by_cases hk : k0 = k
    · subst hk
      have hv : v0 = v := by
        unfold dlookup at hkv
        rw [if_pos rfl] at hkv
        exact Option.some.inj hkv
      have hknm : ∀ p ∈ kw, ¬ p.1 = k0 := by
        intro p hp hpk
        have hm : p.1 ∈ kw.map Prod.fst := List.mem_map_of_mem Prod.fst hp
        rw [hpk] at hm
        exact (List.nodup_cons.mp hnd).1 hm
      have hpres := stackKwFold_lookup_not_mem i k0 kw
        (dinsert d k0 (kwVal v0 i)) hknm
      unfold stackKwFold at hpres
      rw [hpres, dlookup_dinsert, if_pos rfl, hv]
    · have hkv' : dlookup kw k = some v := by
        unfold dlookup at hkv
        rw [if_neg hk] at hkv
        exact hkv
      exact ih (dinsert d k0 (kwVal v0 i)) k v (List.nodup_cons.mp hnd).2 hkv'

theorem take_succ_getD {α : Type} (d : α) :
    ∀ (l : List α) (i : Nat), i < l.length →
      l.take (i + 1) = l.take i ++ [l.getD i d] := by
  intro l
  induction l with
  | nil => intro i hi; simp at hi
  | cons a l ih =>
    intro i hi
    cases i with
    | zero => simp [List.take, List.getD]
    | succ i =>
      have hi' : i < l.length := by simpa using hi
      simp only [List.take_succ_cons, List.getD_cons_succ, ih i hi']
      rfl

theorem dstack_loop_length (spc0 spc1 : String) (kw : List (String × SVal)) :
    ∀ (rest s : List PyVal) (i0 : Nat),
      (_dstack_loop spc0 spc1 kw i0 s rest).length = rest.length := by
  intro rest
  induction rest with
  | nil => intro s i0; rfl
  | cons val rest ih =>
    intro s i0
    simp only [_dstack_loop, List.length_cons, ih]

theorem dstack_loop_getD (spc0 spc1 : String) (kw : List (String × SVal)) :
    ∀ (rest s : List PyVal) (i0 j : Nat), j < rest.length →
      (_dstack_loop spc0 spc1 kw i0 s rest).getD j [] =
        stackKwFold kw (i0 + j)
          (dinsert (dinsert [("name", .py (rest.getD j (.other "")))] spc0
            (.stackE (s ++ rest.take j))) spc1
            (.stackE ((s ++ rest.take j) ++ [rest.getD j (.other "")]))) := by
  intro rest
  induction rest with
  | nil => intro s i0 j hj; simp at hj
  | cons val rest ih =>
    intro s i0 j hj
    cases j with
    | zero =>
      simp [_dstack_loop, List.getD]
    | succ j =>
      have hj' : j < rest.length := by simpa using hj
      simp only [_dstack_loop, List.getD_cons_succ, List.take_succ_cons]
      rw [ih (s ++ [val]) (i0 + 1) j hj']
      have h1 : i0 + 1 + j = i0 + (j + 1) := by omega
      have h2 : (s ++ [val]) ++ rest.take j = s ++ (val :: rest.take j) := by
        simp [List.append_assoc]
      rw [h1, h2]

/-- Counterexample for C8: with a scalar keyword argument named name,
the dict assignment loop overwrites the name entry that held the
stacker, so the first dict maps name to the keyword value x, not to the
first stacker a, while C8 asserts both at once. -/
theorem c8_counterexample :
    _double_stack [PyVal.str "a"] "bottom" "top"
        [("name", SVal.py (PyVal.str "x"))] =
      .ok [[("name", SVal.py (PyVal.str "x")), ("bottom", SVal.stackE []),
        ("top", SVal.stackE [PyVal.str "a"])]] ∧
    dlookup [("name", SVal.py (PyVal.str "x")), ("bottom", SVal.stackE []),
        ("top", SVal.stackE [PyVal.str "a"])] "name" ≠
      some (SVal.py (PyVal.str "a")) :=
  ⟨rfl, by decide⟩

/-- C8 amended: when the length checks pass and spc0, spc1, name are
pairwise distinct keys, _double_stack returns one dict per stacker in
order; the i-th dict maps spc0 to the stack of the first i stackers,
spc1 to the stack of the first i plus one, name to the i-th stacker
provided name is not itself a keyword argument (a name keyword overrides
it), and each keyword argument contributes its i-th element (lists and
tuples) or itself (anything else). -/
theorem c8_double_stack_dicts (stackers : List PyVal) (spc0 spc1 : String)
    (kw : List (String × SVal)) (l : List (List (String × SVal))) (i : Nat)
    (hok : _double_stack stackers spc0 spc1 kw = .ok l)
    (hnd : (kw.map Prod.fst).Nodup)
    (h0n : ¬ spc0 = "name") (h1n : ¬ spc1 = "name") (h01 : ¬ spc0 = spc1)
    (hi : i < stackers.length) :
    l.length = stackers.length ∧
    dlookup (l.getD i []) spc0 = some (.stackE (stackers.take i)) ∧
    dlookup (l.getD i []) spc1 = some (.stackE (stackers.take (i + 1))) ∧
    (dcontains kw "name" = false →
      dlookup (l.getD i []) "name" = some (.py (stackers.getD i (.other "")))) ∧
    (∀ k v, dlookup kw k = some v → dlookup (l.getD i []) k = some (kwVal v i)) := by
  unfold _double_stack at hok
  by_cases hc0 : dcontains kw spc0 = true
  · rw [if_pos hc0] at hok
    cases hok
  · rw [if_neg hc0] at hok
    by_cases hc1 : dcontains kw spc1 = true
    · rw [if_pos hc1] at hok
      cases hok
    · rw [if_neg hc1] at hok
      rcases hchk : _stack_check stackers kw with _ | e
      · rw [hchk] at hok
        have hok' : Except.ok (ε := StackErr) (_dstack_loop spc0 spc1 kw 0 [] stackers) =
            Except.ok l := hok
        have hl : l = _dstack_loop spc0 spc1 kw 0 [] stackers :=
          (Except.ok.inj hok').symm
        subst hl
        have hget := dstack_loop_getD spc0 spc1 kw stackers [] 0 i hi
        rw [Nat.zero_add, List.nil_append] at hget
        have hnm0 : ∀ p ∈ kw, ¬ p.1 = spc0 := fun p hp hpk =>
          hc0 (hpk ▸ dcontains_of_mem kw p hp)
        have hnm1 : ∀ p ∈ kw, ¬ p.1 = spc1 := fun p hp hpk =>
          hc1 (hpk ▸ dcontains_of_mem kw p hp)
        refine ⟨dstack_loop_length spc0 spc1 kw stackers [] 0, ?_, ?_, ?_, ?_⟩
        · rw [hget, stackKwFold_lookup_not_mem i spc0 kw _ hnm0, dlookup_dinsert,
            if_neg h01, dlookup_dinsert, if_pos rfl]
        · rw [hget, stackKwFold_lookup_not_mem i spc1 kw _ hnm1, dlookup_dinsert,
            if_pos rfl, ← take_succ_getD (.other "") stackers i hi]
        · intro hnoname
          have hnmn : ∀ p ∈ kw, ¬ p.1 = "name" := by
            intro p hp hpk
            have hcm := dcontains_of_mem kw p hp
            rw [hpk, hnoname] at hcm
            cases hcm
          rw [hget, stackKwFold_lookup_not_mem i "name" kw _ hnmn, dlookup_dinsert,
            if_neg (fun h : "name" = spc1 => h1n h.symm), dlookup_dinsert,
            if_neg (fun h : "name" = spc0 => h0n h.symm)]
          unfold dlookup
          rw [if_pos rfl]
        · intro k v hkv
          rw [hget]
          exact stackKwFold_lookup_mem i kw _ k v hnd hkv
      · rw [hchk] at hok
        have hok' : Except.error (α := List (List (String × SVal))) e =
            Except.ok l := hok
        cases hok'

/-- Witness for C8 amended: one stacker, no keyword arguments. -/
theorem c8_witness :
    ([[("name", SVal.py (PyVal.str "a")), ("bottom", SVal.stackE []),
        ("top", SVal.stackE [PyVal.str "a"])]] :
      List (List (String × SVal))).length = ([PyVal.str "a"] : List PyVal).length ∧
    dlookup (([[("name", SVal.py (PyVal.str "a")), ("bottom", SVal.stackE []),
        ("top", SVal.stackE [PyVal.str "a"])]] :
      List (List (String × SVal))).getD 0 []) "bottom" =
      some (.stackE ([PyVal.str "a"].take 0)) ∧
    dlookup (([[("name", SVal.py (PyVal.str "a")), ("bottom", SVal.stackE []),
        ("top", SVal.stackE [PyVal.str "a"])]] :
      List (List (String × SVal))).getD 0 []) "top" =
      some (.stackE ([PyVal.str "a"].take 1)) ∧
    (dcontains ([] : List (String × SVal)) "name" = false →
      dlookup (([[("name", SVal.py (PyVal.str "a")), ("bottom", SVal.stackE []),
          ("top", SVal.stackE [PyVal.str "a"])]] :
        List (List (String × SVal))).getD 0 []) "name" =
        some (.py ([PyVal.str "a"].getD 0 (.other "")))) ∧
    (∀ k v, dlookup ([] : List (String × SVal)) k = some v →
      dlookup (([[("name", SVal.py (PyVal.str "a")), ("bottom", SVal.stackE []),
          ("top", SVal.stackE [PyVal.str "a"])]] :
        List (List (String × SVal))).getD 0 []) k = some (kwVal v 0)) :=
  c8_double_stack_dicts [PyVal.str "a"] "bottom" "top" [] _ 0 rfl (by decide)
    (by decide) (by decide) (by decide) (by decide)

end BokehHelpers
